import Mathlib

/-
Verification development for the geometric core of the `ipose` repository
(`src/ipose/raster.py`): the `Rectangle` value type, the face-crop region
deriver `Rectangle.setup_for_face_cropping`, and the tiling planner
`optimal_rectangular_tiling`.

Modelling conventions:
* Pixel coordinates are arbitrary-precision Python integers, embedded as `ℤ`.
* Python floats appearing in the geometry code carry small fractional values
  (padding fractions, scale factors); they are embedded as exact rationals `ℚ`
  and Python's `round` (banker's rounding, round-half-to-even) as `pyRound`.
* Python's truthiness-based argument defaulting `a = a or b` is embedded as
  `pyOr` on `Option ℤ` (an omitted argument is `none`; an explicit `0` is
  falsy and also falls back to the default).
* `numpy.clip(a, lo, hi)` is `min hi (max a lo)`.
* Python floor division `//` is `Int.fdiv`.
* A Python function that can raise is embedded with an `Option` result,
  `none` standing for the raised exception.
-/

namespace Ipose

/-- `Rectangle` from `src/ipose/raster.py`: top-left corner `(x0, y0)`,
`width` and `height`, y running downwards.  The dataclass stores plain
integers. -/
structure Rectangle where
  x0 : ℤ
  y0 : ℤ
  width : ℤ
  height : ℤ
  deriving DecidableEq

namespace Rectangle

/-- `Rectangle.is_square`: `self.width == self.height`. -/
def is_square (r : Rectangle) : Bool :=
  r.width == r.height

/-- `Rectangle.area`: `self.width * self.height`. -/
def area (r : Rectangle) : ℤ :=
  r.width * r.height

/-- `Rectangle.bounding_box`, exactly as written in the source:
`(self.x0, self.y0, self.x0 + self.width, self.y0 + self.width)` — note the
fourth component uses `width`, not `height`. -/
def bounding_box (r : Rectangle) : ℤ × ℤ × ℤ × ℤ :=
  (r.x0, r.y0, r.x0 + r.width, r.y0 + r.width)

/-- Python truthiness defaulting `value or default` for an optional integer
argument: an omitted argument (`none`, Python `None`) and an explicit `0`
are both falsy and yield the default. -/
def pyOr (value : Option ℤ) (default : ℤ) : ℤ :=
  match value with
  | none => default
  | some v => if v = 0 then default else v

/-- `Rectangle.pad(top, right=None, bottom=None, left=None)`:
`right = right or top`, `bottom = bottom or top`, `left = left or right`
(the last line reads the already-rebound `right`), then a new rectangle
`(x0 - left, y0 - top, width + right + left, height + top + bottom)`. -/
def pad (r : Rectangle) (top : ℤ) (right bottom left : Option ℤ) : Rectangle :=
  let right := pyOr right top
  let bottom := pyOr bottom top
  let left := pyOr left right
  ⟨r.x0 - left, r.y0 - top, r.width + right + left, r.height + top + bottom⟩

/-- `Rectangle.fits_within(width, height)`:
`self.width <= width and self.height <= height`. -/
def fits_within (r : Rectangle) (width height : ℤ) : Bool :=
  decide (r.width ≤ width) && decide (r.height ≤ height)

end Rectangle

/-- `numpy.clip(a, lo, hi) = np.minimum(hi, np.maximum(a, lo))`. -/
def clip (a lo hi : ℤ) : ℤ :=
  min hi (max a lo)

namespace Rectangle

/-- `Rectangle.shift_to_fit(width, height)`: raises (here `none`) when the
rectangle does not fit, otherwise clips `x0` into `[0, width - self.width]`
and `y0` into `[0, height - self.height]`, keeping width and height. -/
def shift_to_fit (r : Rectangle) (width height : ℤ) : Option Rectangle :=
  if r.fits_within width height = true then
    some ⟨clip r.x0 0 (width - r.width), clip r.y0 0 (height - r.height),
      r.width, r.height⟩
  else
    none

end Rectangle

/-- Python's built-in `round` on an exact value: round half to even. -/
def pyRound (q : ℚ) : ℤ :=
  if q - ⌊q⌋ < 1/2 then ⌊q⌋
  else if 1/2 < q - ⌊q⌋ then ⌊q⌋ + 1
  else if ⌊q⌋ % 2 = 0 then ⌊q⌋ else ⌊q⌋ + 1

namespace Rectangle

/-- The integer part of `Rectangle.setup_for_face_cropping`, after the two
float roundings have produced `right` and `top`: `bottom = 2 * right - top`,
`rectangle = self.pad(top, right, bottom)` (with `left` omitted).  If the
padded rectangle fits within the image it is shifted to fit; otherwise its
side is replaced by `min(image_width, image_height)` and its origin is
recentred on the original candidate with floor divisions, then shifted to
fit.  Factored out so that all arithmetic here is over `ℤ`. -/
def face_crop_core (r : Rectangle) (image_width image_height right top : ℤ) :
    Option Rectangle :=
  let bottom := 2 * right - top
  let rect := r.pad top (some right) (some bottom) none
  if rect.fits_within image_width image_height = true then
    rect.shift_to_fit image_width image_height
  else
    let side := min image_width image_height
    let rect2 : Rectangle :=
      ⟨r.x0 - Int.fdiv (side - r.width) 2, r.y0 - Int.fdiv (side - r.height) 2,
        side, side⟩
    rect2.shift_to_fit image_width image_height

/-- `Rectangle.setup_for_face_cropping(image_width, image_height,
horizontal_padding=0.5, top_scale_factor=1.25)`, translated line by line.

The source guard `if not self.is_square:` tests the bound method object
(the call parentheses are missing), which is always truthy, so the
`RuntimeError` branch there is unreachable and the guard has no effect on
the result; it therefore does not appear in the embedding.

It computes `right = round(horizontal_padding * self.width)` and
`top = round(top_scale_factor * right)`, then continues with the integer
computation `face_crop_core`. -/
def setup_for_face_cropping (r : Rectangle) (image_width image_height : ℤ)
    (horizontal_padding top_scale_factor : ℚ) : Option Rectangle :=
  let right := pyRound (horizontal_padding * (r.width : ℚ))
  let top := pyRound (top_scale_factor * (right : ℚ))
  face_crop_core r image_width image_height right top

/-- `setup_for_face_cropping` invoked with the source's default keyword
values `horizontal_padding=0.5`, `top_scale_factor=1.25`. -/
def setup_for_face_cropping_default (r : Rectangle)
    (image_width image_height : ℤ) : Option Rectangle :=
  r.setup_for_face_cropping image_width image_height (1/2) (5/4)

end Rectangle

/-- The column count of `optimal_rectangular_tiling`:
`round(np.sqrt(aspect_ratio * num_images * tile_height / tile_width) + 0.5)`
under exact real arithmetic, computed exactly over `ℚ`.

Writing `q` for the quotient and `s = ⌊√q⌋` (for `q ≥ 0` this is
`Nat.sqrt ⌊q⌋`, since `k ≤ √q ↔ k² ≤ q ↔ k² ≤ ⌊q⌋` for natural `k`):
when `√q` is an integer `s` the argument of `round` is `s + 0.5`, an exact
tie that banker's rounding sends to the even neighbour (`s` when `s` is
even, `s + 1` when odd); otherwise `√q + 0.5` has fractional part different
from `1/2` and rounds to `⌊√q⌋ + 1`.  `√q` is an integer exactly when `q`
is the square of an integer, i.e. `q.den = 1` and `q.num = s * s`. -/
def num_cols (num_images tile_width tile_height : ℤ) (ar : ℚ) : ℤ :=
  let q : ℚ := ar * (num_images : ℚ) * (tile_height : ℚ) / (tile_width : ℚ)
  let s : ℕ := Nat.sqrt ⌊q⌋.toNat
  if q.den = 1 ∧ (s : ℤ) * s = q.num then
    (if s % 2 = 0 then (s : ℤ) else (s : ℤ) + 1)
  else
    (s : ℤ) + 1

/-- The row count of `optimal_rectangular_tiling`:
`round(num_images / num_cols + 0.5)` under exact arithmetic. -/
def num_rows (num_images cols : ℤ) : ℤ :=
  pyRound ((num_images : ℚ) / (cols : ℚ) + 1/2)

/-- The pixel offset assigned to loop index `i` in the tiling loop:
`col = i % num_cols`, `row = i // num_cols`, offset
`(col * tile_width, row * tile_height)`. -/
def tile_offset (i c : ℕ) (tile_width tile_height : ℤ) : ℤ × ℤ :=
  (((i % c : ℕ) : ℤ) * tile_width, ((i / c : ℕ) : ℤ) * tile_height)

/-- The loop `for i in range(num_tiles): index = tile_permutation[i];
if index < num_images: tiling[index] = (col * tile_width, row * tile_height)`,
walking over the sampled permutation `p` with running loop index `i`.
Because `p` is a permutation each key is assigned at most once, so the
insertion-ordered dict is an association list. -/
def tiling_loop (p : List ℕ) (i : ℕ) (n c : ℕ)
    (tile_width tile_height : ℤ) : List (ℕ × ℤ × ℤ) :=
  match p with
  | [] => []
  | idx :: rest =>
    if idx < n then
      (idx, tile_offset i c tile_width tile_height) ::
        tiling_loop rest (i + 1) n c tile_width tile_height
    else
      tiling_loop rest (i + 1) n c tile_width tile_height

/-- `optimal_rectangular_tiling(num_images, tile_width, tile_height=None,
aspect_ratio=1.414)`.  `tile_height` defaults to `tile_width` via an
explicit `is None` test.  The parameter `p` stands for the value of
`random.sample(range(num_tiles), num_tiles)`, a uniformly random
permutation of `0 .. num_tiles - 1`; theorems hypothesise exactly that.
The `RuntimeError` raised when `num_tiles < num_images` is `none`.  The
returned triple carries the overall canvas width `num_cols * tile_width`,
height `num_rows * tile_height`, and the tiling dict as an association
list. -/
def optimal_rectangular_tiling (num_images tile_width : ℤ)
    (tile_height : Option ℤ) (ar : ℚ) (p : List ℕ) :
    Option (ℤ × ℤ × List (ℕ × ℤ × ℤ)) :=
  let th := tile_height.getD tile_width
  let c := num_cols num_images tile_width th ar
  let rw := num_rows num_images c
  let t := c * rw
  if t < num_images then
    none
  else
    some (c * tile_width, rw * th,
      tiling_loop p 0 num_images.toNat c.toNat tile_width th)

end Ipose

namespace Ipose

/-! ### Basic lemmas about the embedded primitives -/

theorem is_square_iff (r : Rectangle) :
    r.is_square = true ↔ r.width = r.height := by
  simp [Rectangle.is_square]

theorem fits_within_iff (r : Rectangle) (w h : ℤ) :
    r.fits_within w h = true ↔ r.width ≤ w ∧ r.height ≤ h := by
  simp [Rectangle.fits_within]

theorem clip_nonneg (a hi : ℤ) (h : 0 ≤ hi) : 0 ≤ clip a 0 hi :=
  le_min h (le_max_right a 0)

theorem clip_le (a hi : ℤ) : clip a 0 hi ≤ hi :=
  min_le_left hi _

theorem clip_eq_self (a hi : ℤ) (h0 : 0 ≤ a) (h1 : a ≤ hi) :
    clip a 0 hi = a := by
  unfold clip
  rw [max_eq_left h0, min_eq_right h1]

theorem shift_to_fit_eq (r : Rectangle) (w h : ℤ)
    (hw : r.width ≤ w) (hh : r.height ≤ h) :
    r.shift_to_fit w h =
      some ⟨clip r.x0 0 (w - r.width), clip r.y0 0 (h - r.height),
        r.width, r.height⟩ := by
  unfold Rectangle.shift_to_fit
  rw [if_pos ((fits_within_iff r w h).mpr ⟨hw, hh⟩)]

theorem shift_to_fit_some (r : Rectangle) (w h : ℤ) (out : Rectangle)
    (H : r.shift_to_fit w h = some out) :
    out.width = r.width ∧ out.height = r.height := by
  unfold Rectangle.shift_to_fit at H
  split at H
  · injection H with H'
    subst H'
    exact ⟨rfl, rfl⟩
  · exact Option.noConfusion H

theorem shift_to_fit_bounds (r : Rectangle) (w h : ℤ)
    (hf : r.fits_within w h = true) :
    ∃ out, r.shift_to_fit w h = some out ∧
      0 ≤ out.x0 ∧ 0 ≤ out.y0 ∧ out.x0 + out.width ≤ w ∧
      out.y0 + out.height ≤ h := by
  obtain ⟨hw, hh⟩ := (fits_within_iff r w h).mp hf
  refine ⟨_, shift_to_fit_eq r w h hw hh, ?_, ?_, ?_, ?_⟩
  · exact clip_nonneg _ _ (by linarith)
  · exact clip_nonneg _ _ (by linarith)
  · have := clip_le r.x0 (w - r.width)
    dsimp only
    linarith
  · have := clip_le r.y0 (h - r.height)
    dsimp only
    linarith

/-! ### Evaluation lemmas for `pyRound` -/

theorem pyRound_low (q : ℚ) (n : ℤ) (h1 : (n : ℚ) ≤ q)
    (h2 : q < (n : ℚ) + 1/2) : pyRound q = n := by
  have hf : ⌊q⌋ = n := Int.floor_eq_iff.mpr ⟨h1, by linarith⟩
  unfold pyRound
  rw [hf, if_pos (by linarith)]

theorem pyRound_high (q : ℚ) (n : ℤ) (h1 : (n : ℚ) + 1/2 < q)
    (h2 : q < (n : ℚ) + 1) : pyRound q = n + 1 := by
  have hf : ⌊q⌋ = n := Int.floor_eq_iff.mpr ⟨by linarith, h2⟩
  unfold pyRound
  rw [hf, if_neg (by linarith), if_pos (by linarith)]

theorem pyRound_half_even (n : ℤ) (h : n % 2 = 0) :
    pyRound ((n : ℚ) + 1/2) = n := by
  have hf : ⌊(n : ℚ) + 1/2⌋ = n :=
    Int.floor_eq_iff.mpr ⟨by linarith, by linarith⟩
  unfold pyRound
  rw [hf]
  rw [show (n : ℚ) + 1/2 - (n : ℚ) = 1/2 from by ring]
  rw [if_neg (by norm_num), if_neg (by norm_num), if_pos h]

theorem pyRound_zero : pyRound 0 = 0 :=
  pyRound_low 0 0 (by norm_num) (by norm_num)

theorem pyRound_ge (q : ℚ) : q - 1/2 ≤ (pyRound q : ℚ) := by
  unfold pyRound
  have h0 : ((⌊q⌋ : ℤ) : ℚ) ≤ q := Int.floor_le q
  have h1 : q < ⌊q⌋ + 1 := Int.lt_floor_add_one q
  split_ifs with h2 h3 h4 <;> push_cast <;> linarith

/-- Bridge: once the two roundings are evaluated, the deriver is the integer
computation `face_crop_core`. -/
theorem setup_eq_core (r : Rectangle) (iw ih : ℤ) (hp tsf : ℚ) (rt tp : ℤ)
    (h1 : pyRound (hp * (r.width : ℚ)) = rt)
    (h2 : pyRound (tsf * (rt : ℚ)) = tp) :
    r.setup_for_face_cropping iw ih hp tsf =
      Rectangle.face_crop_core r iw ih rt tp := by
  rw [← h2, ← h1]
  rfl

/-! ### C6, C8, C10: `pad` and `bounding_box` -/

/-- C6 (counterexample): the claimed per-side contract of `pad` fails when an
explicit zero is passed together with a nonzero `top`: for
`Rectangle(100,100,200,200).pad(100, 0, 0, 0)` the claim predicts
`Rectangle(100, 0, 200, 300)` but the code's truthiness defaulting yields
`Rectangle(0, 0, 400, 400)`. -/
theorem pad_claim_cex :
    Rectangle.pad ⟨100, 100, 200, 200⟩ 100 (some 0) (some 0) (some 0) =
      ⟨0, 0, 400, 400⟩ ∧
    (⟨0, 0, 400, 400⟩ : Rectangle) ≠ ⟨100, 0, 200, 300⟩ := by
  decide

/-- C6 (amended): `pad` returns `(x0 - left, y0 - top, width + left + right,
height + top + bottom)` with the defaulting contract `right ← top`,
`bottom ← top`, `left ← right` for omitted arguments, provided each
explicitly passed `right`/`bottom`/`left` is nonzero (an explicitly passed
zero also falls back to the default, by Python truthiness); in particular
the two concrete examples `pad(100)` and `pad(100, 200)` hold. -/
theorem pad_contract :
    (∀ (r : Rectangle) (t rt bt lt : ℤ), rt ≠ 0 → bt ≠ 0 → lt ≠ 0 →
      r.pad t (some rt) (some bt) (some lt) =
        ⟨r.x0 - lt, r.y0 - t, r.width + lt + rt, r.height + t + bt⟩) ∧
    (∀ (r : Rectangle) (t : ℤ), r.pad t none none none =
        ⟨r.x0 - t, r.y0 - t, r.width + 2 * t, r.height + 2 * t⟩) ∧
    (∀ (r : Rectangle) (t rt : ℤ), rt ≠ 0 → r.pad t (some rt) none none =
        ⟨r.x0 - rt, r.y0 - t, r.width + 2 * rt, r.height + 2 * t⟩) ∧
    Rectangle.pad ⟨100, 100, 200, 200⟩ 100 none none none =
      ⟨0, 0, 400, 400⟩ ∧
    Rectangle.pad ⟨100, 100, 200, 200⟩ 100 (some 200) none none =
      ⟨-100, 0, 600, 400⟩ := by
  refine ⟨?_, ?_, ?_, by decide, by decide⟩
  · intro r t rt bt lt hrt hbt hlt
    simp only [Rectangle.pad, Rectangle.pyOr, if_neg hrt, if_neg hbt,
      if_neg hlt]
    rw [Rectangle.mk.injEq]
    exact ⟨rfl, rfl, by ring, rfl⟩
  · intro r t
    simp only [Rectangle.pad, Rectangle.pyOr]
    rw [Rectangle.mk.injEq]
    exact ⟨rfl, rfl, by ring, by ring⟩
  · intro r t rt hrt
    simp only [Rectangle.pad, Rectangle.pyOr, if_neg hrt]
    rw [Rectangle.mk.injEq]
    exact ⟨rfl, rfl, by ring, by ring⟩

/-- C6 (witness): the per-side contract applied at a concrete input with all
three explicit paddings nonzero. -/
theorem pad_contract_witness :
    Rectangle.pad ⟨0, 0, 10, 10⟩ 1 (some 2) (some 3) (some 4) =
      ⟨-4, -1, 16, 14⟩ :=
  pad_contract.1 ⟨0, 0, 10, 10⟩ 1 2 3 4 (by decide) (by decide) (by decide)

/-- C8: `bounding_box` computes the fourth coordinate from `width` on both
axes, so on the non-square `Rectangle(0, 0, 2, 3)` it returns
`(0, 0, 2, 2)` whereas the claimed `(x0, y0, x0+width, y0+height)` would be
`(0, 0, 2, 3)`. -/
theorem bounding_box_uses_width :
    Rectangle.bounding_box ⟨0, 0, 2, 3⟩ = (0, 0, 2, 2) ∧
    Rectangle.bounding_box ⟨0, 0, 2, 3⟩ ≠
      (0, 0, 2, (0 : ℤ) + 3) := by
  decide

/-- C10: `pad`'s truthiness defaulting treats an explicitly passed zero like
an omitted argument, so for every nonzero `t`, `r.pad(t, 0, 0, 0)` equals
`r.pad(t, t, t, t)`. -/
theorem pad_explicit_zero_eq_uniform (r : Rectangle) (t : ℤ) (ht : t ≠ 0) :
    r.pad t (some 0) (some 0) (some 0) =
      r.pad t (some t) (some t) (some t) := by
  simp [Rectangle.pad, Rectangle.pyOr, ht]

/-- C10 (witness): the truthiness identity at a concrete rectangle and
padding. -/
theorem pad_explicit_zero_eq_uniform_witness :
    Rectangle.pad ⟨1, 2, 3, 4⟩ 5 (some 0) (some 0) (some 0) =
      Rectangle.pad ⟨1, 2, 3, 4⟩ 5 (some 5) (some 5) (some 5) :=
  pad_explicit_zero_eq_uniform ⟨1, 2, 3, 4⟩ 5 (by decide)


/-! ### Face-crop deriver: squareness and containment -/

/-- Whatever `right` and `top` the roundings produced, `face_crop_core`
always succeeds and its result lies fully inside the image: in Case A the
pre-checked `fits_within` guards the shift, and in Case B the fallback side
`min image_width image_height` fits by construction. -/
theorem face_crop_core_bounds (r : Rectangle) (iw ih rt tp : ℤ) :
    ∃ out, r.face_crop_core iw ih rt tp = some out ∧
      0 ≤ out.x0 ∧ 0 ≤ out.y0 ∧ out.x0 + out.width ≤ iw ∧
      out.y0 + out.height ≤ ih := by
  simp only [Rectangle.face_crop_core]
  split_ifs with hfit
  · exact shift_to_fit_bounds _ iw ih hfit
  · refine shift_to_fit_bounds _ iw ih ?_
    exact (fits_within_iff _ iw ih).mpr ⟨min_le_left _ _, min_le_right _ _⟩

/-- `face_crop_core` keeps a square candidate square provided the computed
`bottom = 2 * right - top` is not the zero that `pad`'s truthiness
defaulting would silently replace by `top`.  The hypothesis `h0` records
that in the deriver a zero `right` forces a zero `top`. -/
theorem face_crop_core_square (r : Rectangle) (iw ih rt tp : ℤ)
    (hsq : r.width = r.height) (h0 : rt = 0 → tp = 0)
    (hnd : 2 * rt - tp ≠ 0 ∨ tp = 0) :
    ∀ out, r.face_crop_core iw ih rt tp = some out →
      out.width = out.height := by
  intro out hout
  simp only [Rectangle.face_crop_core] at hout
  split_ifs at hout with hfit
  · obtain ⟨hw, hh⟩ := shift_to_fit_some _ iw ih out hout
    rw [hw, hh]
    simp only [Rectangle.pad, Rectangle.pyOr]
    by_cases hrt : rt = 0
    · have htp := h0 hrt
      subst hrt
      subst htp
      simp [hsq]
    · rw [if_neg hrt]
      by_cases hb : 2 * rt - tp = 0
      · rcases hnd with h | h
        · exact absurd hb h
        · exact absurd (by omega : rt = (0:ℤ)) hrt
      · rw [if_neg hb]
        rw [hsq]
        ring
  · obtain ⟨hw, hh⟩ := shift_to_fit_some _ iw ih out hout
    rw [hw, hh]

/-- C1 (counterexample): with the valid parameters
`horizontal_padding = 0.5`, `top_scale_factor = 2.0` and the square
candidate `Rectangle(10, 10, 2, 2)` in a 100×100 image, the deriver
computes `right = 1`, `top = 2`, `bottom = 2*1 - 2 = 0`; the zero `bottom`
is truthiness-defaulted back to `top = 2` inside `pad`, so the returned
rectangle is `Rectangle(9, 8, 4, 6)`, which is not square. -/
theorem setup_square_cex :
    Rectangle.is_square ⟨10, 10, 2, 2⟩ = true ∧ ((0:ℚ) ≤ 1/2) ∧
    ((0:ℚ) ≤ 2) ∧
    Rectangle.setup_for_face_cropping ⟨10, 10, 2, 2⟩ 100 100 (1/2) 2 =
      some ⟨9, 8, 4, 6⟩ ∧
    Rectangle.is_square ⟨9, 8, 4, 6⟩ = false := by
  refine ⟨by decide, by norm_num, by norm_num, ?_, by decide⟩
  rw [setup_eq_core _ 100 100 (1/2) 2 1 2
    (pyRound_low _ 1 (by push_cast; norm_num) (by push_cast; norm_num))
    (pyRound_low _ 2 (by push_cast; norm_num) (by push_cast; norm_num))]
  decide

/-- C1 (amended): for every square candidate and valid parameters the
derived crop rectangle is square, except in the boundary case where the
computed vertical paddings satisfy `top = 2 * right` with `top ≠ 0`
(there `bottom = 0` and `pad`'s truthiness defaulting replaces it by
`top`).  The hypothesis `hnd` excludes exactly that case. -/
theorem setup_square_amended (r : Rectangle) (iw ih : ℤ) (hp tsf : ℚ)
    (hsq : r.is_square = true) (hhp : 0 ≤ hp) (htsf : 0 ≤ tsf)
    (hnd : 2 * pyRound (hp * (r.width : ℚ)) -
        pyRound (tsf * ((pyRound (hp * (r.width : ℚ)) : ℤ) : ℚ)) ≠ 0 ∨
      pyRound (tsf * ((pyRound (hp * (r.width : ℚ)) : ℤ) : ℚ)) = 0) :
    ∀ out, r.setup_for_face_cropping iw ih hp tsf = some out →
      out.is_square = true := by
  intro out hout
  rw [setup_eq_core r iw ih hp tsf (pyRound (hp * (r.width : ℚ)))
    (pyRound (tsf * ((pyRound (hp * (r.width : ℚ)) : ℤ) : ℚ))) rfl rfl]
    at hout
  rw [is_square_iff]
  refine face_crop_core_square r iw ih _ _ ((is_square_iff r).mp hsq)
    ?_ hnd out hout
  intro hz
  rw [hz]
  rw [show (((0:ℤ) : ℤ) : ℚ) = 0 from by norm_num, mul_zero]
  exact pyRound_zero

/-- C1 (witness): the amended squareness theorem applied to the square
candidate `Rectangle(0, 0, 100, 100)` in a 10000×10000 image with the
default parameters, where `right = 50`, `top = 62`, `bottom = 38 ≠ 0`. -/
theorem setup_square_amended_witness :
    Rectangle.is_square ⟨0, 0, 200, 200⟩ = true :=
  setup_square_amended ⟨0, 0, 100, 100⟩ 10000 10000 (1/2) (5/4)
    (by decide) (by norm_num) (by norm_num)
    (Or.inl (by
      rw [pyRound_low ((1:ℚ)/2 * ((100:ℤ) : ℚ)) 50 (by push_cast; norm_num)
        (by push_cast; norm_num)]
      rw [show (5:ℚ)/4 * ((50:ℤ) : ℚ) = ((62:ℤ) : ℚ) + 1/2 from by
        push_cast; norm_num]
      rw [pyRound_half_even 62 (by decide)]
      decide))
    ⟨0, 0, 200, 200⟩
    (by
      rw [setup_eq_core _ 10000 10000 (1/2) (5/4) 50 62
        (pyRound_low _ 50 (by push_cast; norm_num) (by push_cast; norm_num))
        (by
          rw [show (5:ℚ)/4 * ((50:ℤ) : ℚ) = ((62:ℤ) : ℚ) + 1/2 from by
            push_cast; norm_num]
          exact pyRound_half_even 62 (by decide))]
      decide)

/-- C2: for every square candidate inside the image and valid parameters,
the deriver succeeds (the `RuntimeError` branch of `shift_to_fit` is never
reached from inside it) and the returned rectangle is fully contained in
the image bounds. -/
theorem setup_contained (r : Rectangle) (iw ih : ℤ) (hp tsf : ℚ)
    (hsq : r.is_square = true) (hx : 0 ≤ r.x0) (hy : 0 ≤ r.y0)
    (hxw : r.x0 + r.width ≤ iw) (hyh : r.y0 + r.height ≤ ih)
    (hhp : 0 ≤ hp) (htsf : 0 ≤ tsf) :
    ∃ out, r.setup_for_face_cropping iw ih hp tsf = some out ∧
      0 ≤ out.x0 ∧ 0 ≤ out.y0 ∧ out.x0 + out.width ≤ iw ∧
      out.y0 + out.height ≤ ih := by
  rw [setup_eq_core r iw ih hp tsf (pyRound (hp * (r.width : ℚ)))
    (pyRound (tsf * ((pyRound (hp * (r.width : ℚ)) : ℤ) : ℚ))) rfl rfl]
  exact face_crop_core_bounds r iw ih _ _

/-- C2 (witness): containment for the square candidate
`Rectangle(0, 0, 100, 100)` inside a 10000×10000 image with the default
parameters. -/
theorem setup_contained_witness :
    ∃ out, Rectangle.setup_for_face_cropping ⟨0, 0, 100, 100⟩ 10000 10000
        (1/2) (5/4) = some out ∧
      0 ≤ out.x0 ∧ 0 ≤ out.y0 ∧ out.x0 + out.width ≤ 10000 ∧
      out.y0 + out.height ≤ 10000 :=
  setup_contained ⟨0, 0, 100, 100⟩ 10000 10000 (1/2) (5/4) (by decide)
    (by decide) (by decide) (by decide) (by decide) (by norm_num)
    (by norm_num)

/-- C3: the source's squareness guard `if not self.is_square:` tests the
bound method object, which is always truthy, so a non-square candidate is
processed without any error: `Rectangle(0, 0, 2, 3)` in a 100×100 image
yields `Rectangle(0, 0, 4, 5)` instead of the claimed exception. -/
theorem setup_nonsquare_no_error :
    Rectangle.is_square ⟨0, 0, 2, 3⟩ = false ∧
    Rectangle.setup_for_face_cropping ⟨0, 0, 2, 3⟩ 100 100 (1/2) (5/4) =
      some ⟨0, 0, 4, 5⟩ := by
  refine ⟨by decide, ?_⟩
  rw [setup_eq_core _ 100 100 (1/2) (5/4) 1 1
    (pyRound_low _ 1 (by push_cast; norm_num) (by push_cast; norm_num))
    (pyRound_low _ 1 (by push_cast; norm_num) (by push_cast; norm_num))]
  decide

/-- C7 (counterexample): the deriver's default `horizontal_padding` is 0.5,
not 0.4: on the square candidate `Rectangle(0, 0, 100, 100)` in a
10000×10000 image the default call returns a 200×200 rectangle while
`horizontal_padding = 0.4` returns a 180×180 one. -/
theorem setup_default_cex :
    Rectangle.setup_for_face_cropping_default ⟨0, 0, 100, 100⟩ 10000 10000 =
      some ⟨0, 0, 200, 200⟩ ∧
    Rectangle.setup_for_face_cropping ⟨0, 0, 100, 100⟩ 10000 10000 (2/5)
      (5/4) = some ⟨0, 0, 180, 180⟩ ∧
    some (⟨0, 0, 200, 200⟩ : Rectangle) ≠
      some (⟨0, 0, 180, 180⟩ : Rectangle) := by
  refine ⟨?_, ?_, by decide⟩
  · unfold Rectangle.setup_for_face_cropping_default
    rw [setup_eq_core _ 10000 10000 (1/2) (5/4) 50 62
      (pyRound_low _ 50 (by push_cast; norm_num) (by push_cast; norm_num))
      (by
        rw [show (5:ℚ)/4 * ((50:ℤ) : ℚ) = ((62:ℤ) : ℚ) + 1/2 from by
          push_cast; norm_num]
        exact pyRound_half_even 62 (by decide))]
    decide
  · rw [setup_eq_core _ 10000 10000 (2/5) (5/4) 40 50
      (pyRound_low _ 40 (by push_cast; norm_num) (by push_cast; norm_num))
      (pyRound_low _ 50 (by push_cast; norm_num) (by push_cast; norm_num))]
    decide

/-- C7 (amended): the deriver's defaults are `horizontal_padding = 0.5` and
`top_scale_factor = 1.25`: the default call coincides with the explicit
call at `(0.5, 1.25)` on all inputs, and on `Rectangle(0, 0, 100, 100)` in
a 10000×10000 image it yields the 200×200 crop produced by `right = 50`,
`top = 62`. -/
theorem setup_default_amended :
    (∀ (r : Rectangle) (iw ih : ℤ),
      r.setup_for_face_cropping_default iw ih =
        r.setup_for_face_cropping iw ih (1/2) (5/4)) ∧
    Rectangle.setup_for_face_cropping_default ⟨0, 0, 100, 100⟩ 10000 10000 =
      some ⟨0, 0, 200, 200⟩ := by
  refine ⟨fun r iw ih => rfl, ?_⟩
  unfold Rectangle.setup_for_face_cropping_default
  rw [setup_eq_core _ 10000 10000 (1/2) (5/4) 50 62
    (pyRound_low _ 50 (by push_cast; norm_num) (by push_cast; norm_num))
    (by
      rw [show (5:ℚ)/4 * ((50:ℤ) : ℚ) = ((62:ℤ) : ℚ) + 1/2 from by
        push_cast; norm_num]
      exact pyRound_half_even 62 (by decide))]
  decide


/-! ### C9: `shift_to_fit` is idempotent and size-preserving -/

/-- C9: when the rectangle fits, shifting twice equals shifting once, and
the result keeps the rectangle's width and height. -/
theorem shift_to_fit_idempotent (r : Rectangle) (w h : ℤ)
    (hf : r.fits_within w h = true) :
    (r.shift_to_fit w h).bind (fun s => s.shift_to_fit w h) =
      r.shift_to_fit w h ∧
    ∀ out, r.shift_to_fit w h = some out →
      out.width = r.width ∧ out.height = r.height := by
  obtain ⟨hw, hh⟩ := (fits_within_iff r w h).mp hf
  have hwx : 0 ≤ w - r.width := by linarith
  have hhy : 0 ≤ h - r.height := by linarith
  have e1 : clip (clip r.x0 0 (w - r.width)) 0 (w - r.width) =
      clip r.x0 0 (w - r.width) :=
    clip_eq_self _ _ (clip_nonneg _ _ hwx) (clip_le _ _)
  have e2 : clip (clip r.y0 0 (h - r.height)) 0 (h - r.height) =
      clip r.y0 0 (h - r.height) :=
    clip_eq_self _ _ (clip_nonneg _ _ hhy) (clip_le _ _)
  refine ⟨?_, fun out hout => shift_to_fit_some r w h out hout⟩
  rw [shift_to_fit_eq r w h hw hh]
  show Rectangle.shift_to_fit _ w h = _
  rw [shift_to_fit_eq ⟨clip r.x0 0 (w - r.width), clip r.y0 0 (h - r.height),
    r.width, r.height⟩ w h hw hh]
  dsimp only
  rw [e1, e2]

/-- C9 (witness): idempotence at `Rectangle(-10, -10, 100, 100)` within a
200×200 area. -/
theorem shift_to_fit_idempotent_witness :
    (Rectangle.shift_to_fit ⟨-10, -10, 100, 100⟩ 200 200).bind
        (fun s => s.shift_to_fit 200 200) =
      Rectangle.shift_to_fit ⟨-10, -10, 100, 100⟩ 200 200 :=
  (shift_to_fit_idempotent ⟨-10, -10, 100, 100⟩ 200 200 (by decide)).1

/-! ### C4: tiling capacity -/

theorem quotient_pos (n tw th : ℤ) (ar : ℚ) (hn : 1 ≤ n) (htw : 1 ≤ tw)
    (hth : 1 ≤ th) (har : 0 < ar) :
    0 < ar * (n : ℚ) * (th : ℚ) / (tw : ℚ) := by
  apply div_pos
  · apply mul_pos (mul_pos har _) _
    · exact_mod_cast (by omega : (0:ℤ) < n)
    · exact_mod_cast (by omega : (0:ℤ) < th)
  · exact_mod_cast (by omega : (0:ℤ) < tw)

theorem one_le_num_cols (n tw th : ℤ) (ar : ℚ)
    (hq : 0 < ar * (n : ℚ) * (th : ℚ) / (tw : ℚ)) :
    1 ≤ num_cols n tw th ar := by
  have hnum : 0 < (ar * (n : ℚ) * (th : ℚ) / (tw : ℚ)).num :=
    Rat.num_pos.mpr hq
  simp only [num_cols]
  split_ifs with h1 h2
  · obtain ⟨hden, hsq⟩ := h1
    by_contra hlt
    push_neg at hlt
    have hz :
        ((Nat.sqrt (⌊ar * (n : ℚ) * (th : ℚ) / (tw : ℚ)⌋.toNat) : ℕ) : ℤ)
          = 0 := by
      omega
    rw [hz] at hsq
    omega
  · omega
  · omega

theorem one_le_num_rows (n c : ℤ) (hn : 1 ≤ n) (hc : 1 ≤ c) :
    1 ≤ num_rows n c := by
  have hcQ : (0 : ℚ) < (c : ℚ) := by exact_mod_cast (by omega : (0:ℤ) < c)
  have hnQ : (0 : ℚ) < (n : ℚ) := by exact_mod_cast (by omega : (0:ℤ) < n)
  have hge := pyRound_ge ((n : ℚ) / (c : ℚ) + 1/2)
  have hdiv : (0 : ℚ) < (n : ℚ) / (c : ℚ) := div_pos hnQ hcQ
  have hpos : (0 : ℚ) < (pyRound ((n : ℚ) / (c : ℚ) + 1/2) : ℚ) := by
    linarith
  have : 0 < pyRound ((n : ℚ) / (c : ℚ) + 1/2) := by exact_mod_cast hpos
  unfold num_rows
  omega

theorem num_images_le_capacity (n tw th : ℤ) (ar : ℚ) (hn : 1 ≤ n)
    (htw : 1 ≤ tw) (hth : 1 ≤ th) (har : 0 < ar) :
    n ≤ num_cols n tw th ar * num_rows n (num_cols n tw th ar) := by
  have hc := one_le_num_cols n tw th ar (quotient_pos n tw th ar hn htw hth har)
  have hcQ : (0 : ℚ) < ((num_cols n tw th ar : ℤ) : ℚ) := by
    exact_mod_cast (by omega : (0:ℤ) < num_cols n tw th ar)
  have hge := pyRound_ge ((n : ℚ) / ((num_cols n tw th ar : ℤ) : ℚ) + 1/2)
  have hr : (n : ℚ) / ((num_cols n tw th ar : ℤ) : ℚ) ≤
      (num_rows n (num_cols n tw th ar) : ℚ) := by
    unfold num_rows
    linarith
  have hmul : ((num_cols n tw th ar : ℤ) : ℚ) *
      ((n : ℚ) / ((num_cols n tw th ar : ℤ) : ℚ)) = (n : ℚ) := by
    field_simp
  have hfin : (n : ℚ) ≤ ((num_cols n tw th ar : ℤ) : ℚ) *
      (num_rows n (num_cols n tw th ar) : ℚ) := by
    calc (n : ℚ) = ((num_cols n tw th ar : ℤ) : ℚ) *
        ((n : ℚ) / ((num_cols n tw th ar : ℤ) : ℚ)) := hmul.symm
      _ ≤ _ := mul_le_mul_of_nonneg_left hr (le_of_lt hcQ)
  exact_mod_cast hfin

/-- C4: for every valid tiling input the computed `columns * rows` capacity
covers `num_images`, so `optimal_rectangular_tiling` never takes its
`RuntimeError` branch, with the `tile_height` argument either given or
defaulted. -/
theorem tiling_capacity (n tw th : ℤ) (ar : ℚ) (p : List ℕ) (hn : 1 ≤ n)
    (htw : 1 ≤ tw) (hth : 1 ≤ th) (har : 0 < ar) :
    n ≤ num_cols n tw th ar * num_rows n (num_cols n tw th ar) ∧
    (optimal_rectangular_tiling n tw (some th) ar p).isSome = true ∧
    (optimal_rectangular_tiling n tw none ar p).isSome = true := by
  refine ⟨num_images_le_capacity n tw th ar hn htw hth har, ?_, ?_⟩
  · unfold optimal_rectangular_tiling
    simp only [Option.getD_some]
    rw [if_neg (not_lt.mpr (num_images_le_capacity n tw th ar hn htw hth har))]
    rfl
  · unfold optimal_rectangular_tiling
    simp only [Option.getD_none]
    rw [if_neg (not_lt.mpr (num_images_le_capacity n tw tw ar hn htw htw har))]
    rfl

/-- C4 (witness): capacity at `num_images = 5`, 100×100 tiles and target
aspect ratio 1. -/
theorem tiling_capacity_witness :
    5 ≤ num_cols 5 100 100 1 * num_rows 5 (num_cols 5 100 100 1) ∧
    (optimal_rectangular_tiling 5 100 (some 100) 1 []).isSome = true ∧
    (optimal_rectangular_tiling 5 100 none 1 []).isSome = true :=
  tiling_capacity 5 100 100 1 [] (by decide) (by decide) (by decide)
    (by norm_num)


/-! ### C5: the tiling plan -/

theorem slot_bound (a b : ℕ) (t : ℤ) (ht : 1 ≤ t) (hab : a < b) :
    ((a : ℕ) : ℤ) * t + t ≤ ((b : ℕ) : ℤ) * t := by
  have h1 : ((a : ℕ) : ℤ) + 1 ≤ ((b : ℕ) : ℤ) := by exact_mod_cast hab
  have h2 : (((a : ℕ) : ℤ) + 1) * t ≤ ((b : ℕ) : ℤ) * t :=
    mul_le_mul_of_nonneg_right h1 (by linarith)
  have h3 : (((a : ℕ) : ℤ) + 1) * t = ((a : ℕ) : ℤ) * t + t := by ring
  linarith

theorem tile_offset_inj (c : ℕ) (tw th : ℤ) (htw : tw ≠ 0) (hth : th ≠ 0)
    (j k : ℕ) (h : tile_offset j c tw th = tile_offset k c tw th) : j = k := by
  simp only [tile_offset, Prod.mk.injEq] at h
  obtain ⟨h1, h2⟩ := h
  have hm : j % c = k % c := by exact_mod_cast mul_right_cancel₀ htw h1
  have hd : j / c = k / c := by exact_mod_cast mul_right_cancel₀ hth h2
  calc j = c * (j / c) + j % c := (Nat.div_add_mod j c).symm
    _ = c * (k / c) + k % c := by rw [hm, hd]
    _ = k := Nat.div_add_mod k c

theorem tile_offset_disj (c : ℕ) (tw th : ℤ) (htw : 1 ≤ tw) (hth : 1 ≤ th)
    (j k : ℕ) (hne : j ≠ k) :
    (tile_offset j c tw th).1 + tw ≤ (tile_offset k c tw th).1 ∨
    (tile_offset k c tw th).1 + tw ≤ (tile_offset j c tw th).1 ∨
    (tile_offset j c tw th).2 + th ≤ (tile_offset k c tw th).2 ∨
    (tile_offset k c tw th).2 + th ≤ (tile_offset j c tw th).2 := by
  simp only [tile_offset]
  rcases lt_trichotomy (j % c) (k % c) with h | h | h
  · exact Or.inl (slot_bound _ _ tw htw h)
  · rcases lt_trichotomy (j / c) (k / c) with h' | h' | h'
    · exact Or.inr (Or.inr (Or.inl (slot_bound _ _ th hth h')))
    · exfalso
      apply hne
      calc j = c * (j / c) + j % c := (Nat.div_add_mod j c).symm
        _ = c * (k / c) + k % c := by rw [h, h']
        _ = k := Nat.div_add_mod k c
    · exact Or.inr (Or.inr (Or.inr (slot_bound _ _ th hth h')))
  · exact Or.inr (Or.inl (slot_bound _ _ tw htw h))

theorem tiling_loop_map_fst (p : List ℕ) (n c : ℕ) (tw th : ℤ) :
    ∀ i, (tiling_loop p i n c tw th).map Prod.fst =
      p.filter (fun x => decide (x < n)) := by
  induction p with
  | nil => intro i; rfl
  | cons idx rest ih =>
    intro i
    simp only [tiling_loop]
    by_cases h : idx < n
    · rw [if_pos h]
      simp [List.filter_cons, h, ih (i + 1)]
    · rw [if_neg h]
      simp [List.filter_cons, h, ih (i + 1)]

theorem tiling_loop_mem (p : List ℕ) (n c : ℕ) (tw th : ℤ) :
    ∀ i e, e ∈ tiling_loop p i n c tw th →
      ∃ j, j < p.length ∧ e.1 < n ∧ e.2 = tile_offset (i + j) c tw th := by
  induction p with
  | nil =>
    intro i e he
    simp [tiling_loop] at he
  | cons idx rest ih =>
    intro i e he
    simp only [tiling_loop] at he
    by_cases h : idx < n
    · rw [if_pos h] at he
      rcases List.mem_cons.mp he with h1 | h2
      · refine ⟨0, by simp, ?_, ?_⟩
        · rw [h1]; exact h
        · rw [h1]; simp
      · obtain ⟨j, hj, hl, he2⟩ := ih (i + 1) e h2
        refine ⟨j + 1, by simp; omega, hl, ?_⟩
        rw [he2]
        congr 1
        omega
    · rw [if_neg h] at he
      obtain ⟨j, hj, hl, he2⟩ := ih (i + 1) e he
      refine ⟨j + 1, by simp; omega, hl, ?_⟩
      rw [he2]
      congr 1
      omega

theorem tiling_loop_pairwise {S : ℤ × ℤ → ℤ × ℤ → Prop} (p : List ℕ)
    (n c : ℕ) (tw th : ℤ)
    (hS : ∀ j k, j ≠ k → S (tile_offset j c tw th) (tile_offset k c tw th)) :
    ∀ i, (tiling_loop p i n c tw th).Pairwise (fun a b => S a.2 b.2) := by
  induction p with
  | nil => intro i; simp [tiling_loop]
  | cons idx rest ih =>
    intro i
    simp only [tiling_loop]
    by_cases h : idx < n
    · rw [if_pos h]
      refine List.Pairwise.cons ?_ (ih (i + 1))
      intro b hb
      obtain ⟨j, hj, hl, he⟩ := tiling_loop_mem rest n c tw th (i + 1) b hb
      show S (tile_offset i c tw th) b.2
      rw [he]
      exact hS i (i + 1 + j) (by omega)
    · rw [if_neg h]
      exact ih (i + 1)

theorem filter_range_lt (n : ℕ) :
    ∀ m, n ≤ m →
      (List.range m).filter (fun x => decide (x < n)) = List.range n := by
  intro m
  induction m with
  | zero =>
    intro h
    have hn0 : n = 0 := by omega
    subst hn0
    rfl
  | succ m ih =>
    intro h
    rcases Nat.lt_or_ge m n with hmn | hmn
    · have hnm : n = m + 1 := by omega
      subst hnm
      apply List.filter_eq_self.mpr
      intro a ha
      simpa using List.mem_range.mp ha
    · rw [List.range_succ, List.filter_append, ih hmn]
      have hx : ¬ (m < n) := by omega
      simp [hx]

/-- All guarantees of the tiling plan, for abstract column and row counts:
each image index below `num_images` appears exactly once as a key, the
assigned offsets are pairwise distinct and pairwise non-overlapping, and
every slot lies inside the `columns*tile_width × rows*tile_height`
canvas. -/
theorem tiling_plan_core (n c rr tw th : ℤ) (p : List ℕ)
    (hn : 1 ≤ n) (hc : 1 ≤ c) (hr : 1 ≤ rr) (htw : 1 ≤ tw) (hth : 1 ≤ th)
    (hcap : n ≤ c * rr)
    (hperm : p.Perm (List.range ((c * rr).toNat))) :
    ((tiling_loop p 0 n.toNat c.toNat tw th).map Prod.fst).Perm
      (List.range n.toNat) ∧
    (tiling_loop p 0 n.toNat c.toNat tw th).Pairwise
      (fun a b => a.2 ≠ b.2) ∧
    (tiling_loop p 0 n.toNat c.toNat tw th).Pairwise
      (fun a b => a.2.1 + tw ≤ b.2.1 ∨ b.2.1 + tw ≤ a.2.1 ∨
        a.2.2 + th ≤ b.2.2 ∨ b.2.2 + th ≤ a.2.2) ∧
    ∀ e ∈ tiling_loop p 0 n.toNat c.toNat tw th,
      0 ≤ e.2.1 ∧ e.2.1 + tw ≤ c * tw ∧ 0 ≤ e.2.2 ∧ e.2.2 + th ≤ rr * th := by
  refine ⟨?_, ?_, ?_, ?_⟩
  · rw [tiling_loop_map_fst p n.toNat c.toNat tw th 0]
    have h1 := hperm.filter (fun x => decide (x < n.toNat))
    rw [filter_range_lt n.toNat ((c * rr).toNat) (by omega)] at h1
    exact h1
  · exact @tiling_loop_pairwise (fun x y => x ≠ y) p n.toNat c.toNat tw th
      (fun j k hne heq => hne (tile_offset_inj c.toNat tw th (by omega)
        (by omega) j k heq)) 0
  · exact @tiling_loop_pairwise
      (fun x y => x.1 + tw ≤ y.1 ∨ y.1 + tw ≤ x.1 ∨
        x.2 + th ≤ y.2 ∨ y.2 + th ≤ x.2) p n.toNat c.toNat tw th
      (fun j k hne => tile_offset_disj c.toNat tw th htw hth j k hne) 0
  · intro e he
    obtain ⟨j, hj, hlt, h2⟩ := tiling_loop_mem p n.toNat c.toNat tw th 0 e he
    have hlen : p.length = (c * rr).toNat :=
      hperm.length_eq.trans (List.length_range _)
    have hC : ((c.toNat : ℕ) : ℤ) = c := Int.toNat_of_nonneg (by omega)
    have hR : ((rr.toNat : ℕ) : ℤ) = rr := Int.toNat_of_nonneg (by omega)
    have hCR : (c * rr).toNat = c.toNat * rr.toNat := by
      have hmul : ((c.toNat * rr.toNat : ℕ) : ℤ) = c * rr := by
        push_cast
        rw [hC, hR]
      omega
    have hjlt : j < c.toNat * rr.toNat := by omega
    have hcpos : 0 < c.toNat := by omega
    rw [h2]
    simp only [tile_offset]
    have hmlt : (0 + j) % c.toNat < c.toNat := Nat.mod_lt _ hcpos
    have hdlt : (0 + j) / c.toNat < rr.toNat := by
      rw [Nat.div_lt_iff_lt_mul hcpos, Nat.mul_comm]
      omega
    refine ⟨?_, ?_, ?_, ?_⟩
    · exact mul_nonneg (Int.natCast_nonneg _) (by omega)
    · have hb := slot_bound ((0 + j) % c.toNat) c.toNat tw htw hmlt
      rw [hC] at hb
      exact hb
    · exact mul_nonneg (Int.natCast_nonneg _) (by omega)
    · have hb := slot_bound ((0 + j) / c.toNat) rr.toNat th hth hdlt
      rw [hR] at hb
      exact hb

/-- C5: for every valid tiling input and sampled permutation, the returned
plan assigns every image index `0 .. num_images - 1` exactly one slot, the
assigned pixel offsets are pairwise distinct and non-overlapping, and all
slots lie inside a canvas of exactly `columns*tile_width` by
`rows*tile_height`. -/
theorem tiling_plan_ok (n tw th : ℤ) (ar : ℚ) (p : List ℕ)
    (hn : 1 ≤ n) (htw : 1 ≤ tw) (hth : 1 ≤ th) (har : 0 < ar)
    (hperm : p.Perm (List.range
      ((num_cols n tw th ar * num_rows n (num_cols n tw th ar)).toNat))) :
    ∀ W H plan,
      optimal_rectangular_tiling n tw (some th) ar p = some (W, H, plan) →
      W = num_cols n tw th ar * tw ∧
      H = num_rows n (num_cols n tw th ar) * th ∧
      ((plan.map Prod.fst).Perm (List.range n.toNat)) ∧
      plan.Pairwise (fun a b => a.2 ≠ b.2) ∧
      plan.Pairwise (fun a b => a.2.1 + tw ≤ b.2.1 ∨ b.2.1 + tw ≤ a.2.1 ∨
        a.2.2 + th ≤ b.2.2 ∨ b.2.2 + th ≤ a.2.2) ∧
      ∀ e ∈ plan, 0 ≤ e.2.1 ∧ e.2.1 + tw ≤ W ∧ 0 ≤ e.2.2 ∧
        e.2.2 + th ≤ H := by
  have hcap := num_images_le_capacity n tw th ar hn htw hth har
  have hc1 := one_le_num_cols n tw th ar
    (quotient_pos n tw th ar hn htw hth har)
  have hr1 := one_le_num_rows n (num_cols n tw th ar) hn hc1
  intro W H plan hplan
  simp only [optimal_rectangular_tiling, Option.getD_some] at hplan
  rw [if_neg (not_lt.mpr hcap)] at hplan
  injection hplan with hplan
  have hW : num_cols n tw th ar * tw = W := congrArg Prod.fst hplan
  have hH : num_rows n (num_cols n tw th ar) * th = H :=
    congrArg (fun x => x.2.1) hplan
  have hP : tiling_loop p 0 n.toNat (num_cols n tw th ar).toNat tw th =
      plan := congrArg (fun x => x.2.2) hplan
  subst hW
  subst hH
  subst hP
  obtain ⟨k1, k2, k3, k4⟩ := tiling_plan_core n (num_cols n tw th ar)
    (num_rows n (num_cols n tw th ar)) tw th p hn hc1 hr1 htw hth hcap hperm
  exact ⟨rfl, rfl, k1, k2, k3, k4⟩


theorem nat_sqrt_eval (m k : ℕ) (h1 : k * k ≤ m)
    (h2 : m < (k + 1) * (k + 1)) : Nat.sqrt m = k :=
  (Nat.eq_sqrt.mpr ⟨h1, h2⟩).symm

theorem num_cols_five : num_cols 5 100 100 1 = 3 := by
  simp only [num_cols]
  rw [show (1 : ℚ) * ((5 : ℤ) : ℚ) * ((100 : ℤ) : ℚ) / ((100 : ℤ) : ℚ) = 5
    from by push_cast; norm_num]
  rw [show ⌊(5 : ℚ)⌋ = 5 from by norm_num]
  rw [show ((5 : ℤ).toNat) = 5 from rfl]
  rw [nat_sqrt_eval 5 2 (by norm_num) (by norm_num)]
  rw [show ((5 : ℚ)).den = 1 from rfl, show ((5 : ℚ)).num = 5 from rfl]
  norm_num

theorem num_rows_five_three : num_rows 5 3 = 2 := by
  unfold num_rows
  rw [show ((5 : ℤ) : ℚ) / ((3 : ℤ) : ℚ) + 1/2 = 13/6 from by
    push_cast; norm_num]
  exact pyRound_low (13/6) 2 (by norm_num) (by norm_num)

/-- C5 (witness): the plan guarantees at `num_images = 5`, 100×100 tiles,
aspect ratio 1 and the identity permutation of the 6 slots, where the plan
is computed concretely. -/
theorem tiling_plan_ok_witness :
    (300 : ℤ) = num_cols 5 100 100 1 * 100 ∧
    (200 : ℤ) = num_rows 5 (num_cols 5 100 100 1) * 100 ∧
    ((([(0, (0, 0)), (1, (100, 0)), (2, (200, 0)), (3, (0, 100)),
        (4, (100, 100))] : List (ℕ × ℤ × ℤ)).map Prod.fst).Perm
      (List.range (5 : ℤ).toNat)) ∧
    ([(0, (0, 0)), (1, (100, 0)), (2, (200, 0)), (3, (0, 100)),
        (4, (100, 100))] : List (ℕ × ℤ × ℤ)).Pairwise
      (fun a b => a.2 ≠ b.2) ∧
    ([(0, (0, 0)), (1, (100, 0)), (2, (200, 0)), (3, (0, 100)),
        (4, (100, 100))] : List (ℕ × ℤ × ℤ)).Pairwise
      (fun a b => a.2.1 + 100 ≤ b.2.1 ∨ b.2.1 + 100 ≤ a.2.1 ∨
        a.2.2 + 100 ≤ b.2.2 ∨ b.2.2 + 100 ≤ a.2.2) ∧
    ∀ e ∈ ([(0, (0, 0)), (1, (100, 0)), (2, (200, 0)), (3, (0, 100)),
        (4, (100, 100))] : List (ℕ × ℤ × ℤ)),
      0 ≤ e.2.1 ∧ e.2.1 + 100 ≤ 300 ∧ 0 ≤ e.2.2 ∧ e.2.2 + 100 ≤ 200 :=
  tiling_plan_ok 5 100 100 1 [0, 1, 2, 3, 4, 5] (by decide) (by decide)
    (by decide) (by norm_num)
    (by rw [num_cols_five, num_rows_five_three]; decide)
    300 200 _ (by
      simp only [optimal_rectangular_tiling, Option.getD_some]
      rw [num_cols_five, num_rows_five_three]
      decide)

end Ipose
